import Mathlib

/-!
Verification of the OOP-Streamlit-Demo form engine
(`src/Build_Compose_and_OOP.py`) against its natural-language
specification.

The Python classes are embedded shallowly:
* a component's `_state` dict (string keys, insertion-ordered, as Python
  dicts are) becomes an association list `List (String ×  Value)` whose
  keys stay unique by construction of the update operation;
* the widget values handled by the program (text inputs and number
  inputs) become the inductive `Value`;
* methods become pure functions on component records, mutation becomes
  explicit state passing;
* code that raises becomes `Except`.
-/

namespace OOPDemo

/-- A Python value held in a component's `_state` dict: the program only
ever stores widget returns, which are strings (text / select widgets) or
numbers (number widget, embedded as `Int`). -/
inductive Value where
  | str (s : String)
  | num (n : Int)
  deriving DecidableEq, Repr

/-- `d.get(k)` on a Python dict embedded as an insertion-ordered
association list: the value at the first (hence, keys being unique, the
only) matching key, or `none`. -/
def dictGet {α : Type} (d : List (String × α)) (k : String) : Option α :=
  match d with
  | [] => Option.none
  | p :: rest => if p.1 = k then some p.2 else dictGet rest k

/-- `d[k] = v` on a Python dict embedded as an insertion-ordered
association list: update the value in place if the key is present,
append the pair at the end otherwise. -/
def dictSet {α : Type} (d : List (String × α)) (k : String) (v : α) : List (String × α) :=
  match d with
  | [] => [(k, v)]
  | p :: rest => if p.1 = k then (k, v) :: rest else p :: dictSet rest k v

theorem dictGet_dictSet_self {α : Type} (d : List (String × α)) (k : String) (v : α) :
    dictGet (dictSet d k v) k = some v := by
  induction d with
  | nil => simp [dictGet, dictSet]
  | cons p rest ih =>
    by_cases h : p.1 = k
    · simp [dictGet, dictSet, h]
    · simp [dictGet, dictSet, h, ih]

theorem dictGet_dictSet_ne {α : Type} (d : List (String × α)) (k k' : String) (v : α)
    (h : k' ≠ k) : dictGet (dictSet d k v) k' = dictGet d k' := by
  have hkk : ¬ k = k' := fun h' => h h'.symm
  induction d with
  | nil => simp [dictGet, dictSet, hkk]
  | cons p rest ih =>
    by_cases hp : p.1 = k
    · subst hp
      simp [dictGet, dictSet, hkk]
    · by_cases hp' : p.1 = k'
      · simp [dictGet, dictSet, hp, hp', h]
      · simp [dictGet, dictSet, hp, hp', ih]

theorem dictGet_eq_none_of_not_mem {α : Type} (d : List (String × α)) (k : String)
    (h : k ∉ d.map Prod.fst) : dictGet d k = Option.none := by
  induction d with
  | nil => rfl
  | cons p rest ih =>
    simp only [List.map_cons, List.mem_cons] at h
    push_neg at h
    have hpk : ¬ p.1 = k := fun h' => h.1 h'.symm
    simp [dictGet, hpk, ih h.2]

theorem dictSet_eq_append_of_not_mem {α : Type} (d : List (String × α)) (k : String) (v : α)
    (h : k ∉ d.map Prod.fst) : dictSet d k v = d ++ [(k, v)] := by
  induction d with
  | nil => rfl
  | cons p rest ih =>
    simp only [List.map_cons, List.mem_cons] at h
    push_neg at h
    have hpk : ¬ p.1 = k := fun h' => h.1 h'.symm
    simp [dictSet, hpk, ih h.2]

/-- The kind of a form field, the `"type"` key of a field dict: the
render loop of `FormComponent.render` recognises exactly `"text"`,
`"number"` and `"select"`. -/
inductive FieldType where
  | text
  | number
  | select
  deriving DecidableEq, Repr

/-- One field dict of the `fields` list handed to `FormComponent`:
`{"name": ..., "label": ..., "type": ..., "options": ...}` (the
`options` key is only read for select fields; absent means `[]` here). -/
structure Field where
  name : String
  label : String
  ftype : FieldType
  options : List String := []
  deriving DecidableEq, Repr

/-- A `FormComponent(title, fields)` instance: `title` and `fields` from
`__init__`, `_state` from the `UIComponent` base initialiser (`{}` at
construction). -/
structure FormComponent where
  title : String
  fields : List Field
  state : List (String × Value) := []
  deriving DecidableEq, Repr

/-- `FormComponent(title, fields)`: `UIComponent.__init__` sets
`self._state = {}`. -/
def mkForm (title : String) (fields : List Field) : FormComponent :=
  { title := title, fields := fields, state := [] }

/-- `UIComponent.update_state(self, key, value)`:
`self._state[key] = value`, unconditionally. -/
def FormComponent.update_state (c : FormComponent) (key : String) (v : Value) : FormComponent :=
  { c with state := dictSet c.state key v }

/-- `UIComponent.get_state(self, key)`: `self._state.get(key)`. -/
def FormComponent.get_state (c : FormComponent) (key : String) : Option Value :=
  dictGet c.state key

/-- A sequence of `update_state` calls applied in order to a component. -/
def applyUpdates (c : FormComponent) (ops : List (String × Value)) : FormComponent :=
  ops.foldl (fun c p => c.update_state p.1 p.2) c

/-- Python truthiness of a stored value, as used by the render loop's
`self.get_state(...) or default` expressions: `""` and `0` are falsy. -/
def pyTruthy : Value → Bool
  | .str s => !(s == "")
  | .num n => !(n == 0)

/-- Python `x or default` where `x` is `self.get_state(name)`:
the prior value when present and truthy, the default otherwise. -/
def pyOr (v : Option Value) (dflt : Value) : Value :=
  match v with
  | Option.none => dflt
  | some w => if pyTruthy w then w else dflt

/-- Errors the render loop can raise. -/
inductive FormError where
  | schemaError
  deriving DecidableEq, Repr

/-- The value `FormComponent.render` stores for one field, given the
prior `self.get_state(field["name"])`.

Modelled from the spec: the widget calls (`st.text_input`,
`st.number_input`, `st.selectbox`) are external framework code absent
from this repository; on a fresh render each returns the default the
program passes it (`value=... or ""`, `value=... or 0`, the option at
`index`), and a select whose option list is empty fails with
`SchemaError` since no option exists at the computed index.  The index
computation (`options.index(prev) if prev in options else 0`) is the
program's own and is embedded from the source. -/
def renderField (prev : Option Value) (f : Field) : Except FormError Value :=
  match f.ftype with
  | .text => .ok (pyOr prev (.str ""))
  | .number => .ok (pyOr prev (.num 0))
  | .select =>
      let idx : Nat :=
        match prev with
        | some (Value.str s) => if f.options.contains s then f.options.indexOf s else 0
        | _ => 0
      match f.options.get? idx with
      | some o => .ok (Value.str o)
      | Option.none => .error .schemaError

/-- The state-update effect of the field loop of `FormComponent.render`:
for each field in schema order,
`self._state[field["name"]] = <widget value>`. -/
def renderStates : List Field → List (String × Value) → Except FormError (List (String × Value))
  | [], st => .ok st
  | f :: fs, st =>
      match renderField (dictGet st f.name) f with
      | .error e => .error e
      | .ok v => renderStates fs (dictSet st f.name v)

/-- `FormComponent.render(self)` restricted to its effect on
`self._state` (the page chrome and submit display are out of scope). -/
def FormComponent.render (c : FormComponent) : Except FormError FormComponent :=
  match renderStates c.fields c.state with
  | .error e => .error e
  | .ok st => .ok { c with state := st }

/-- The spec's `createState(schema)`: the state produced by the first
render of a freshly constructed `FormComponent` (empty `_state`). -/
def createState (fields : List Field) : Except FormError (List (String × Value)) :=
  renderStates fields []

/-- The spec's kind-appropriate default for a field: `""` for Text, `0`
for Number, the first option for Select. -/
def defaultValue (f : Field) : Value :=
  match f.ftype with
  | .text => .str ""
  | .number => .num 0
  | .select => .str (f.options.headD "")

theorem renderField_none_eq_default (f : Field)
    (h : f.ftype = FieldType.select → f.options ≠ []) :
    renderField Option.none f = .ok (defaultValue f) := by
  cases hft : f.ftype with
  | text => simp [renderField, defaultValue, hft, pyOr]
  | number => simp [renderField, defaultValue, hft, pyOr]
  | select =>
    have hne := h hft
    cases hopt : f.options with
    | nil => exact absurd hopt hne
    | cons o os => simp [renderField, defaultValue, hft, hopt, List.get?]

theorem renderField_ok_of_not_empty_select (prev : Option Value) (f : Field)
    (h : f.ftype = FieldType.select → f.options ≠ []) :
    ∃ v, renderField prev f = .ok v := by
  cases hft : f.ftype with
  | text => exact ⟨pyOr prev (.str ""), by simp [renderField, hft]⟩
  | number => exact ⟨pyOr prev (.num 0), by simp [renderField, hft]⟩
  | select =>
    have hne := h hft
    rcases prev with _ | w
    · cases hopt : f.options with
      | nil => exact absurd hopt hne
      | cons o os => exact ⟨Value.str o, by simp [renderField, hft, hopt, List.get?]⟩
    · cases w with
      | num n =>
        cases hopt : f.options with
        | nil => exact absurd hopt hne
        | cons o os => exact ⟨Value.str o, by simp [renderField, hft, hopt, List.get?]⟩
      | str s =>
        by_cases hm : s ∈ f.options
        · refine ⟨Value.str s, ?_⟩
          have hc : f.options.contains s = true := by simpa using hm
          simp only [renderField, hft]
          rw [if_pos hc, List.indexOf_get? hm]
        · have hc : ¬ (f.options.contains s = true) := by simpa using hm
          cases hopt : f.options with
          | nil => exact absurd hopt hne
          | cons o os =>
            refine ⟨Value.str o, ?_⟩
            simp only [renderField, hft]
            rw [hopt] at hc ⊢
            rw [if_neg hc]
            rfl

theorem renderField_err_of_empty_select (prev : Option Value) (f : Field)
    (hft : f.ftype = FieldType.select) (hopt : f.options = []) :
    renderField prev f = .error FormError.schemaError := by
  rcases prev with _ | w
  · simp [renderField, hft, hopt, List.get?]
  · cases w <;> simp [renderField, hft, hopt, List.get?]

theorem renderStates_frame (fields : List Field) (st st' : List (String × Value))
    (hok : renderStates fields st = .ok st') (k : String)
    (hk : k ∉ fields.map Field.name) : dictGet st' k = dictGet st k := by
  induction fields generalizing st with
  | nil =>
    simp only [renderStates] at hok
    cases hok
    rfl
  | cons f fs ih =>
    simp only [List.map_cons, List.mem_cons] at hk
    push_neg at hk
    simp only [renderStates] at hok
    cases hrf : renderField (dictGet st f.name) f with
    | error e => rw [hrf] at hok; cases hok
    | ok v =>
      rw [hrf] at hok
      have := ih (dictSet st f.name v) hok hk.2
      rw [this, dictGet_dictSet_ne _ _ _ _ hk.1]

theorem renderStates_lookup (fields : List Field) (st st' : List (String × Value))
    (hnd : (fields.map Field.name).Nodup)
    (hok : renderStates fields st = .ok st') :
    ∀ g ∈ fields, ∃ v, renderField (dictGet st g.name) g = .ok v ∧
      dictGet st' g.name = some v := by
  induction fields generalizing st with
  | nil => intro g hg; cases hg
  | cons f fs ih =>
    simp only [List.map_cons, List.nodup_cons] at hnd
    simp only [renderStates] at hok
    cases hrf : renderField (dictGet st f.name) f with
    | error e => rw [hrf] at hok; cases hok
    | ok v =>
      rw [hrf] at hok
      intro g hg
      rcases List.mem_cons.mp hg with hgf | hgfs
      · subst hgf
        refine ⟨v, hrf, ?_⟩
        rw [renderStates_frame fs _ _ hok g.name hnd.1, dictGet_dictSet_self]
      · have hne : g.name ≠ f.name := by
          intro hEq
          exact hnd.1 (hEq ▸ List.mem_map_of_mem Field.name hgfs)
        obtain ⟨w, hw1, hw2⟩ := ih (dictSet st f.name v) hnd.2 hok g hgfs
        rw [dictGet_dictSet_ne _ _ _ _ hne] at hw1
        exact ⟨w, hw1, hw2⟩

theorem renderStates_fresh (fields : List Field) (st : List (String × Value))
    (hnd : (fields.map Field.name).Nodup)
    (hdisj : ∀ f ∈ fields, f.name ∉ st.map Prod.fst)
    (hsel : ∀ f ∈ fields, f.ftype = FieldType.select → f.options ≠ []) :
    renderStates fields st = .ok (st ++ fields.map (fun f => (f.name, defaultValue f))) := by
  induction fields generalizing st with
  | nil => simp [renderStates]
  | cons f fs ih =>
    simp only [List.map_cons, List.nodup_cons] at hnd
    have hget : dictGet st f.name = Option.none :=
      dictGet_eq_none_of_not_mem st f.name (hdisj f (List.mem_cons_self f fs))
    have hrf : renderField (dictGet st f.name) f = .ok (defaultValue f) := by
      rw [hget]
      exact renderField_none_eq_default f (hsel f (List.mem_cons_self f fs))
    have hset : dictSet st f.name (defaultValue f) = st ++ [(f.name, defaultValue f)] :=
      dictSet_eq_append_of_not_mem st f.name _ (hdisj f (List.mem_cons_self f fs))
    have hdisj' : ∀ g ∈ fs, g.name ∉ (st ++ [(f.name, defaultValue f)]).map Prod.fst := by
      intro g hg
      simp only [List.map_append, List.mem_append, List.map_cons, List.map_nil,
        List.mem_singleton]
      rintro (hmem | hmem)
      · exact hdisj g (List.mem_cons_of_mem f hg) hmem
      · exact hnd.1 (hmem ▸ List.mem_map_of_mem Field.name hg)
    have := ih (st ++ [(f.name, defaultValue f)]) hnd.2 hdisj'
      (fun g hg => hsel g (List.mem_cons_of_mem f hg))
    simp only [renderStates, hrf, hset, this, List.append_assoc, List.singleton_append,
      List.map_cons]

theorem renderStates_err_of_empty_select (fields : List Field) (st : List (String × Value))
    (h : ∃ f ∈ fields, f.ftype = FieldType.select ∧ f.options = []) :
    renderStates fields st = .error FormError.schemaError := by
  induction fields generalizing st with
  | nil => obtain ⟨f, hf, _⟩ := h; cases hf
  | cons f fs ih =>
    obtain ⟨g, hg, hgt, hgo⟩ := h
    rcases List.mem_cons.mp hg with hgf | hgfs
    · subst hgf
      simp [renderStates, renderField_err_of_empty_select _ g hgt hgo]
    · cases hrf : renderField (dictGet st f.name) f with
      | error e =>
        have : e = FormError.schemaError := by cases e; rfl
        subst this
        simp [renderStates, hrf]
      | ok v =>
        simp only [renderStates, hrf]
        exact ih (dictSet st f.name v) ⟨g, hgfs, hgt, hgo⟩

theorem dictGet_map_name {β : Type} (l : List Field) (valf : Field → β)
    (hnd : (l.map Field.name).Nodup) (g : Field) (hg : g ∈ l) :
    dictGet (l.map (fun f => (f.name, valf f))) g.name = some (valf g) := by
  induction l with
  | nil => cases hg
  | cons f fs ih =>
    simp only [List.map_cons, List.nodup_cons] at hnd
    rcases List.mem_cons.mp hg with hgf | hgfs
    · subst hgf
      simp [dictGet]
    · have hne : ¬ f.name = g.name := by
        intro hEq
        exact hnd.1 (hEq ▸ List.mem_map_of_mem Field.name hgfs)
      simp [dictGet, hne, ih hnd.2 hgfs]

/-- One validation rule as stored by `add_validation`: the
`(validation_fn, error_message)` pair.  The predicate receives
`self._state.get(field_name)`, hence an optional value. -/
abbrev Rule : Type := (Option Value → Bool) × String

/-- An `EnhancedFormComponent(title, fields, description, help_texts)`
instance: `_validations` is the dict built by `add_validation`
(field name, insertion-ordered, to its list of rules). -/
structure EnhancedFormComponent where
  title : String
  fields : List Field
  description : Option String := Option.none
  helpTexts : List (String × String) := []
  state : List (String × Value) := []
  validations : List (String × List Rule) := []

/-- `add_validation(self, field_name, validation_fn, error_message)`:
creates `self._validations[field_name] = []` when the key is absent,
then appends `(validation_fn, error_message)` to that list. -/
def EnhancedFormComponent.add_validation (c : EnhancedFormComponent) (fieldName : String)
    (fn : Option Value → Bool) (msg : String) : EnhancedFormComponent :=
  match dictGet c.validations fieldName with
  | Option.none => { c with validations := dictSet c.validations fieldName [(fn, msg)] }
  | some lst => { c with validations := dictSet c.validations fieldName (lst ++ [(fn, msg)]) }

/-- `_validate_form(self)`: walks `self._validations.items()` in dict
(insertion) order, each field's rules in list order, emits
`st.error(f"{field_name}: {error_message}")` for every failing rule and
flips `is_valid` to `False`; returns `is_valid`.  Embedded as the pair
(errors emitted in order, returned flag). -/
def EnhancedFormComponent.validate_form (c : EnhancedFormComponent) : List String × Bool :=
  c.validations.foldl
    (fun acc p =>
      p.2.foldl
        (fun acc2 r =>
          if r.1 (dictGet c.state p.1) then acc2
          else (acc2.1 ++ [p.1 ++ ": " ++ r.2], false))
        acc)
    ([], true)

/-- Calling `_validate_form` as an operation on the component: the
method reads `self._state` and `self._validations` and performs no
write, so the component comes back as it went in. -/
def EnhancedFormComponent.validate_step (c : EnhancedFormComponent) :
    (List String × Bool) × EnhancedFormComponent :=
  (c.validate_form, c)

/-- The messages of every failing rule, fields in the `_validations`
dict's insertion order, one field's rules in registration order. -/
def failMsgs (c : EnhancedFormComponent) : List String :=
  c.validations.flatMap (fun p =>
    (p.2.filter (fun r => !(r.1 (dictGet c.state p.1)))).map
      (fun r => p.1 ++ ": " ++ r.2))

theorem isEmpty_append {α : Type} (l m : List α) :
    (l ++ m).isEmpty = (l.isEmpty && m.isEmpty) := by
  cases l <;> simp [List.isEmpty]

theorem foldl_rules_eq (rules : List Rule) (fv : Option Value) (name : String)
    (pref : List String) (b : Bool) :
    rules.foldl
      (fun acc2 r => if r.1 fv then acc2 else (acc2.1 ++ [name ++ ": " ++ r.2], false))
      (pref, b)
    = (pref ++ (rules.filter (fun r => !(r.1 fv))).map (fun r => name ++ ": " ++ r.2),
       b && rules.all (fun r => r.1 fv)) := by
  induction rules generalizing pref b with
  | nil => simp
  | cons r rs ih =>
    by_cases hr : r.1 fv
    · simp [List.foldl_cons, hr, ih]
    · simp [List.foldl_cons, hr, ih]

theorem filter_map_isEmpty_eq_all (rules : List Rule) (fv : Option Value) (name : String) :
    ((rules.filter (fun r => !(r.1 fv))).map (fun r => name ++ ": " ++ r.2)).isEmpty
      = rules.all (fun r => r.1 fv) := by
  induction rules with
  | nil => rfl
  | cons r rs ih =>
    by_cases hr : r.1 fv
    · simp [List.filter_cons, hr, ih]
    · simp [List.filter_cons, hr]

theorem foldl_validations_eq (vs : List (String × List Rule))
    (st : List (String × Value)) (pref : List String) (b : Bool) :
    vs.foldl
      (fun acc p =>
        p.2.foldl
          (fun acc2 r =>
            if r.1 (dictGet st p.1) then acc2 else (acc2.1 ++ [p.1 ++ ": " ++ r.2], false))
          acc)
      (pref, b)
    = (pref ++ vs.flatMap (fun p =>
         (p.2.filter (fun r => !(r.1 (dictGet st p.1)))).map (fun r => p.1 ++ ": " ++ r.2)),
       b && vs.all (fun p => p.2.all (fun r => r.1 (dictGet st p.1)))) := by
  induction vs generalizing pref b with
  | nil => simp
  | cons p ps ih =>
    rw [List.foldl_cons, foldl_rules_eq, ih]
    simp [List.append_assoc, Bool.and_assoc]

theorem all_validations_eq_isEmpty (vs : List (String × List Rule))
    (st : List (String × Value)) :
    vs.all (fun p => p.2.all (fun r => r.1 (dictGet st p.1)))
      = (vs.flatMap (fun p =>
          (p.2.filter (fun r => !(r.1 (dictGet st p.1)))).map
            (fun r => p.1 ++ ": " ++ r.2))).isEmpty := by
  induction vs with
  | nil => rfl
  | cons p ps ih =>
    rw [List.flatMap_cons, isEmpty_append, List.all_cons, ih,
      filter_map_isEmpty_eq_all]

/-- An argument handed to `set_auth_token`: a Python `str`, or a value
of any other type (for which `isinstance(token, str)` is false). -/
inductive PyToken where
  | str (s : String)
  | nonStr

/-- An `AuthenticatedComponent(title, required_roles)` instance:
`_required_roles` from `required_roles or []`, the private
`__auth_token` starting as `None`, `_state` from the base class. -/
structure AuthenticatedComponent where
  title : String
  requiredRoles : List String := []
  authToken : Option String := Option.none
  state : List (String × Value) := []
  deriving DecidableEq, Repr

/-- `AuthenticatedComponent.__init__(self, title, required_roles=None)`:
`self._required_roles = required_roles or []` (a `None` argument — and
likewise an empty list — yields `[]`). -/
def mkAuth (title : String) (requiredRoles : Option (List String)) : AuthenticatedComponent :=
  { title := title, requiredRoles := requiredRoles.getD [], authToken := Option.none,
    state := [] }

/-- `set_auth_token(self, token)`: raises
`ValueError("Invalid token format")` when the argument is not a `str` or
shorter than 10 characters, otherwise stores it in `self.__auth_token`. -/
def AuthenticatedComponent.set_auth_token (c : AuthenticatedComponent) (t : PyToken) :
    Except String AuthenticatedComponent :=
  match t with
  | .nonStr => .error "Invalid token format"
  | .str s =>
      if s.length < 10 then .error "Invalid token format"
      else .ok { c with authToken := some s }

/-- `_validate_role(self, user_roles)`:
`any(role in self._required_roles for role in user_roles)`. -/
def AuthenticatedComponent.validate_role (c : AuthenticatedComponent)
    (userRoles : List String) : Bool :=
  userRoles.any (fun role => c.requiredRoles.contains role)

/-- What `AuthenticatedComponent.render` displays. -/
inductive AuthRender where
  | authRequired
  | insufficientPermissions
  | content (userRoles : List String)
  deriving DecidableEq, Repr

/-- `AuthenticatedComponent.render(self)`: errors out when
`self.__auth_token` is falsy (`None`, or the unreachable `""`); sets the
simulated `user_roles = ["admin"]`; errors out when `_required_roles` is
non-empty (truthy) and `_validate_role(user_roles)` fails; otherwise
shows the authenticated content. -/
def AuthenticatedComponent.render (c : AuthenticatedComponent) : AuthRender :=
  match c.authToken with
  | Option.none => .authRequired
  | some tok =>
      if tok = "" then .authRequired
      else
        let userRoles := ["admin"]
        if !c.requiredRoles.isEmpty && !(c.validate_role userRoles) then
          .insufficientPermissions
        else .content userRoles

/-- The registration form of the example usage block. -/
def regForm : FormComponent :=
  mkForm "Registration Form"
    [⟨"username", "Username", FieldType.text, []⟩,
     ⟨"email", "Email", FieldType.text, []⟩,
     ⟨"age", "Age", FieldType.number, []⟩,
     ⟨"gender", "Gender", FieldType.select,
       ["Male", "Female", "Other", "Prefer not to say"]⟩]

/-- An enhanced form over two text fields `a` then `b`, no rules yet. -/
def exBase : EnhancedFormComponent :=
  { title := "Demo",
    fields := [⟨"a", "A", FieldType.text, []⟩, ⟨"b", "B", FieldType.text, []⟩] }

/-- A rule predicate that rejects every value. -/
def alwaysFail : Option Value → Bool := fun _ => false

/-- `exBase` with a failing rule registered on `b` first, then one on
`a`: registration order is the reverse of the schema order `[a, b]`. -/
def exOrder : EnhancedFormComponent :=
  (exBase.add_validation "b" alwaysFail "mb").add_validation "a" alwaysFail "ma"

/-- C1 (amended): `_validate_form` evaluates every registered rule of
every field without short-circuiting — the emitted error sequence is
exactly the message of each failing rule — with one field's rules in
registration order and fields in the insertion order of the
`_validations` dict (the order in which field names first received a
rule), and the returned flag is true iff that error sequence is empty. -/
theorem validate_form_spec (c : EnhancedFormComponent) :
    c.validate_form = (failMsgs c, (failMsgs c).isEmpty) := by
  unfold EnhancedFormComponent.validate_form failMsgs
  rw [foldl_validations_eq c.validations c.state [] true,
    all_validations_eq_isEmpty c.validations c.state]
  simp

/-- C1 counterexample: with schema order `[a, b]` but a rule registered
on `b` before the rule on `a`, both failing, `_validate_form` emits the
`b` message first — not the schema order the claim states. -/
theorem validate_form_not_schema_order :
    exOrder.fields.map Field.name = ["a", "b"] ∧
    (exOrder.validate_form).1 = ["b: mb", "a: ma"] ∧
    (exOrder.validate_form).1 ≠ ["a: ma", "b: mb"] := by
  refine ⟨rfl, rfl, ?_⟩
  intro h
  have : (["b: mb", "a: ma"] : List String) = ["a: ma", "b: mb"] := h
  simp at this

/-- A rule predicate that accepts every value. -/
def ruleTrue : Option Value → Bool := fun _ => true

/-- C4 counterexample: `add_validation` on a field name absent from the
schema does not fail — it registers the rule under that name. -/
theorem add_validation_unknown_field_no_error :
    ("nope" ∉ exBase.fields.map Field.name) ∧
    (exBase.add_validation "nope" ruleTrue "m").validations.map Prod.fst = ["nope"] := by
  exact ⟨by decide, rfl⟩

/-- C4 (amended): `add_validation` appends the rule to the named field's
rule list, creating the entry when absent, preserving registration
order, and leaves every other entry and the rest of the component
unchanged; it performs no schema check, so it never fails — also for a
field name not in the schema. -/
theorem add_validation_spec (c : EnhancedFormComponent) (name : String)
    (fn : Option Value → Bool) (msg : String) :
    dictGet (c.add_validation name fn msg).validations name
      = some (((dictGet c.validations name).getD []) ++ [(fn, msg)]) ∧
    (∀ k, k ≠ name → dictGet (c.add_validation name fn msg).validations k
      = dictGet c.validations k) ∧
    (c.add_validation name fn msg).state = c.state ∧
    (c.add_validation name fn msg).fields = c.fields := by
  unfold EnhancedFormComponent.add_validation
  cases hv : dictGet c.validations name with
  | none =>
      exact ⟨by simp [dictGet_dictSet_self],
        fun k hk => by simp [dictGet_dictSet_ne _ _ _ _ hk], rfl, rfl⟩
  | some lst =>
      exact ⟨by simp [dictGet_dictSet_self],
        fun k hk => by simp [dictGet_dictSet_ne _ _ _ _ hk], rfl, rfl⟩

/-- C4 witness: the theorem applied to `exBase`, field `a`, a concrete
rule, and the distinct key `zz`. -/
theorem add_validation_spec_witness :
    dictGet ((exBase.add_validation "a" ruleTrue "m").validations) "a"
      = some (((dictGet exBase.validations "a").getD []) ++ [(ruleTrue, "m")]) ∧
    dictGet ((exBase.add_validation "a" ruleTrue "m").validations) "zz"
      = dictGet exBase.validations "zz" :=
  ⟨(add_validation_spec exBase "a" ruleTrue "m").1,
   (add_validation_spec exBase "a" ruleTrue "m").2.1 "zz" (by decide)⟩

/-- C6: `_validate_form` is pure and idempotent — invoking it leaves the
component (its state and rules) unchanged, and invoking it again on that
unchanged component returns the identical result and component, with the
rules re-evaluated (no cached outcome is consulted). -/
theorem validate_step_pure (c : EnhancedFormComponent) :
    (c.validate_step).2 = c ∧
    ((c.validate_step).2).validate_step = c.validate_step :=
  ⟨rfl, rfl⟩

/-- C2 counterexample: `update_state` with the name `nickname`, absent
from the registration schema, raises nothing and mutates the state — the
key is added with the given value. -/
theorem update_state_unknown_field_mutates :
    ("nickname" ∉ regForm.fields.map Field.name) ∧
    (regForm.update_state "nickname" (Value.str "x")).state ≠ regForm.state ∧
    (regForm.update_state "nickname" (Value.str "x")).get_state "nickname"
      = some (Value.str "x") := by
  refine ⟨by decide, by decide, rfl⟩

/-- C2 (amended): `update_state` performs no schema or type check and
cannot fail: for every key — in the schema or not — and every value —
matching the field's kind or not — it stores the value under that key
and leaves every other key's value unchanged. -/
theorem update_state_total_spec (c : FormComponent) (key : String) (v : Value) :
    (c.update_state key v).get_state key = some v ∧
    (∀ k, k ≠ key → (c.update_state key v).get_state k = c.get_state k) :=
  ⟨dictGet_dictSet_self c.state key v,
   fun k hk => dictGet_dictSet_ne c.state key k v hk⟩

/-- C2 witness: the amended theorem applied to the registration form, an
out-of-schema key, and the distinct key `email`. -/
theorem update_state_total_spec_witness :
    (regForm.update_state "nickname" (Value.str "x")).get_state "nickname"
      = some (Value.str "x") ∧
    (regForm.update_state "nickname" (Value.str "x")).get_state "email"
      = regForm.get_state "email" :=
  ⟨(update_state_total_spec regForm "nickname" (Value.str "x")).1,
   (update_state_total_spec regForm "nickname" (Value.str "x")).2 "email" (by decide)⟩

/-- The spec's notion of a valid `(name, value)` pair for a field: the
value's tag matches the field's kind, and for a Select field the value
is one of its options. -/
def matchesField (v : Value) (f : Field) : Bool :=
  match f.ftype, v with
  | FieldType.text, Value.str _ => true
  | FieldType.number, Value.num _ => true
  | FieldType.select, Value.str s => f.options.contains s
  | _, _ => false

/-- C5: for every state and valid `(name, value)` pair matching the
field's kind and options, `update_state` stores exactly that key's new
value, leaves every other key's value unchanged, and touches nothing
else of the component. -/
theorem update_state_valid_frame (c : FormComponent) (key : String) (v : Value)
    (_valid : ∃ f ∈ c.fields, f.name = key ∧ matchesField v f = true) :
    (c.update_state key v).get_state key = some v ∧
    (∀ k, k ≠ key → (c.update_state key v).get_state k = c.get_state k) ∧
    (c.update_state key v).title = c.title ∧
    (c.update_state key v).fields = c.fields :=
  ⟨dictGet_dictSet_self c.state key v,
   fun k hk => dictGet_dictSet_ne c.state key k v hk, rfl, rfl⟩

/-- C5 witness: the theorem applied to the registration form and the
valid pair `("gender", "Male")`, with the distinct key `age`. -/
theorem update_state_valid_frame_witness :
    (regForm.update_state "gender" (Value.str "Male")).get_state "gender"
      = some (Value.str "Male") ∧
    (regForm.update_state "gender" (Value.str "Male")).get_state "age"
      = regForm.get_state "age" :=
  ⟨(update_state_valid_frame regForm "gender" (Value.str "Male") (by decide)).1,
   (update_state_valid_frame regForm "gender" (Value.str "Male") (by decide)).2.1
     "age" (by decide)⟩

theorem applyUpdates_frame (ops : List (String × Value)) (c : FormComponent) (k : String)
    (hk : k ∉ ops.map Prod.fst) :
    (applyUpdates c ops).get_state k = c.get_state k := by
  induction ops generalizing c with
  | nil => rfl
  | cons p ps ih =>
    simp only [List.map_cons, List.mem_cons] at hk
    push_neg at hk
    have hstep : applyUpdates c (p :: ps) = applyUpdates (c.update_state p.1 p.2) ps := rfl
    rw [hstep, ih _ hk.2]
    exact dictGet_dictSet_ne c.state p.1 k p.2 hk.1

/-- C8: on a freshly constructed component, after any sequence of
`update_state` calls, `get_state` returns `None` for every key that none
of those calls set — whether or not the key is a field name of the
schema — not the field's default. -/
theorem get_state_unset_none (title : String) (fields : List Field)
    (ops : List (String × Value)) (k : String) (hk : k ∉ ops.map Prod.fst) :
    (applyUpdates (mkForm title fields) ops).get_state k = Option.none := by
  rw [applyUpdates_frame ops (mkForm title fields) k hk]
  rfl

/-- C8 witness: the theorem applied to the registration form's schema,
one update on `username`, and the schema key `email` never set. -/
theorem get_state_unset_none_witness :
    (applyUpdates (mkForm "Registration Form" regForm.fields)
      [("username", Value.str "u")]).get_state "email" = Option.none :=
  get_state_unset_none "Registration Form" regForm.fields
    [("username", Value.str "u")] "email" (by decide)

/-- C3: on a valid schema (distinct field names), a first render of a
fresh component initialises every field to its kind-appropriate default
(`""` for text, `0` for number, the first option for a select with a
non-empty option list), the resulting keyset is exactly the schema's
field names in order, and the render fails with the schema error when
some select field has an empty option list. -/
theorem createState_spec (fields : List Field)
    (hnd : (fields.map Field.name).Nodup) :
    ((∀ f ∈ fields, f.ftype = FieldType.select → f.options ≠ []) →
      ∃ st, createState fields = .ok st ∧
        st.map Prod.fst = fields.map Field.name ∧
        ∀ f ∈ fields, dictGet st f.name = some (defaultValue f)) ∧
    ((∃ f ∈ fields, f.ftype = FieldType.select ∧ f.options = []) →
      createState fields = .error FormError.schemaError) := by
  constructor
  · intro hsel
    refine ⟨fields.map (fun f => (f.name, defaultValue f)), ?_, ?_, ?_⟩
    · have h := renderStates_fresh fields [] hnd (by simp) hsel
      simpa [createState] using h
    · simp only [List.map_map]
      rfl
    · intro f hf
      exact dictGet_map_name fields defaultValue hnd f hf
  · intro hempty
    exact renderStates_err_of_empty_select fields [] hempty

/-- C3 witness: the theorem applied to the registration schema; its
select field `gender` has a non-empty option list. -/
theorem createState_spec_witness :
    ∃ st, createState regForm.fields = .ok st ∧
      st.map Prod.fst = regForm.fields.map Field.name ∧
      ∀ f ∈ regForm.fields, dictGet st f.name = some (defaultValue f) :=
  (createState_spec regForm.fields (by decide)).1 (by decide)

theorem renderField_select_mem (prev : Option Value) (f : Field) (v : Value)
    (hft : f.ftype = FieldType.select)
    (hok : renderField prev f = .ok v) :
    ∃ o ∈ f.options, v = Value.str o ∧
      ((∀ s, prev = some (Value.str s) → s ∉ f.options) →
        o = f.options.headD "") := by
  have headD_of_get0 : ∀ o : String, f.options.get? 0 = some o → o = f.options.headD "" := by
    intro o h
    cases hl : f.options with
    | nil => rw [hl] at h; cases h
    | cons a t =>
      rw [hl] at h
      simp only [List.get?] at h
      cases h
      simp [hl]
  rcases prev with _ | w
  · simp only [renderField, hft] at hok
    cases h0 : f.options.get? 0 with
    | none => rw [h0] at hok; cases hok
    | some o =>
      rw [h0] at hok
      cases hok
      exact ⟨o, List.get?_mem h0, rfl, fun _ => headD_of_get0 o h0⟩
  · cases w with
    | num n =>
      simp only [renderField, hft] at hok
      cases h0 : f.options.get? 0 with
      | none => rw [h0] at hok; cases hok
      | some o =>
        rw [h0] at hok
        cases hok
        exact ⟨o, List.get?_mem h0, rfl, fun _ => headD_of_get0 o h0⟩
    | str s =>
      simp only [renderField, hft] at hok
      by_cases hc : f.options.contains s = true
      · rw [if_pos hc] at hok
        cases h0 : f.options.get? (List.indexOf s f.options) with
        | none => rw [h0] at hok; cases hok
        | some o =>
          rw [h0] at hok
          cases hok
          refine ⟨o, List.get?_mem h0, rfl, ?_⟩
          intro hnone
          exact absurd (by simpa using hc) (hnone s rfl)
      · rw [if_neg hc] at hok
        cases h0 : f.options.get? 0 with
        | none => rw [h0] at hok; cases hok
        | some o =>
          rw [h0] at hok
          cases hok
          exact ⟨o, List.get?_mem h0, rfl, fun _ => headD_of_get0 o h0⟩

/-- C7 (amended): the membership invariant is established by render, not
by every operation — after a successful render, every select field's
stored value is one of its options, and when the pre-render value was
not one of the options the first option is stored as the fallback;
`update_state`, however, accepts a value outside the options and leaves
it stored until the next render. -/
theorem render_select_invariant (c c' : FormComponent)
    (hnd : (c.fields.map Field.name).Nodup)
    (hok : c.render = .ok c') :
    ∀ f ∈ c.fields, f.ftype = FieldType.select →
      ∃ o ∈ f.options, c'.get_state f.name = some (Value.str o) ∧
        ((∀ s, c.get_state f.name = some (Value.str s) → s ∉ f.options) →
          o = f.options.headD "") := by
  unfold FormComponent.render at hok
  cases hrs : renderStates c.fields c.state with
  | error e => rw [hrs] at hok; cases hok
  | ok st =>
    rw [hrs] at hok
    cases hok
    intro f hf hft
    obtain ⟨v, hv1, hv2⟩ := renderStates_lookup c.fields c.state st hnd hrs f hf
    obtain ⟨o, ho, hvo, hfb⟩ := renderField_select_mem (dictGet c.state f.name) f v hft hv1
    subst hvo
    exact ⟨o, ho, hv2, hfb⟩

/-- A one-field select form with options `["A", "B"]` and no prior
state. -/
def selForm : FormComponent :=
  mkForm "Survey" [⟨"gender", "G", FieldType.select, ["A", "B"]⟩]

/-- `selForm` after its first render: the fallback `"A"` is stored. -/
def selFormRendered : FormComponent :=
  { title := "Survey", fields := [⟨"gender", "G", FieldType.select, ["A", "B"]⟩],
    state := [("gender", Value.str "A")] }

/-- C7 witness: the amended theorem applied to the rendered one-field
select form: the stored value is an option, and with no prior value the
fallback is the first option `"A"`. -/
theorem render_select_invariant_witness :
    ∃ o ∈ (Field.mk "gender" "G" FieldType.select ["A", "B"]).options,
      selFormRendered.get_state (Field.mk "gender" "G" FieldType.select ["A", "B"]).name
        = some (Value.str o) ∧
      ((∀ s, selForm.get_state (Field.mk "gender" "G" FieldType.select ["A", "B"]).name
          = some (Value.str s) →
          s ∉ (Field.mk "gender" "G" FieldType.select ["A", "B"]).options) →
        o = (Field.mk "gender" "G" FieldType.select ["A", "B"]).options.headD "") :=
  render_select_invariant selForm selFormRendered (by decide) rfl
    (Field.mk "gender" "G" FieldType.select ["A", "B"]) (by decide) rfl

/-- C7 counterexample: `update_state` stores `"C"` for the select field
with options `["A", "B"]` — the stored value is neither a member of the
options nor the first-option fallback, so the invariant does not hold
after every operation. -/
theorem update_state_breaks_select_invariant :
    (selForm.update_state "gender" (Value.str "C")).get_state "gender"
      = some (Value.str "C") ∧
    ("C" ∉ (["A", "B"] : List String)) ∧
    Value.str "C" ≠ Value.str "A" := by
  refine ⟨rfl, by decide, by decide⟩

/-- C9: `set_auth_token` raises `ValueError` exactly when the argument
is not a string or is shorter than 10 characters; every string of length
at least 10 is stored unchanged, with no inspection of its content and
nothing else of the component touched. -/
theorem set_auth_token_spec (c : AuthenticatedComponent) :
    (c.set_auth_token PyToken.nonStr = .error "Invalid token format") ∧
    (∀ s : String, s.length < 10 →
      c.set_auth_token (PyToken.str s) = .error "Invalid token format") ∧
    (∀ s : String, 10 ≤ s.length →
      c.set_auth_token (PyToken.str s) = .ok { c with authToken := some s }) := by
  refine ⟨rfl, ?_, ?_⟩
  · intro s hs
    simp [AuthenticatedComponent.set_auth_token, hs]
  · intro s hs
    simp [AuthenticatedComponent.set_auth_token, Nat.not_lt.mpr hs]

/-- The admin dashboard component right after construction (no token). -/
def authDemo : AuthenticatedComponent := mkAuth "Admin Dashboard" (some ["admin"])

/-- C9 witness: the theorem applied to the dashboard with the example's
22-character token and with a 5-character one. -/
theorem set_auth_token_spec_witness :
    authDemo.set_auth_token (PyToken.str "valid_token_1234567890")
      = .ok { authDemo with authToken := some "valid_token_1234567890" } ∧
    authDemo.set_auth_token (PyToken.str "short") = .error "Invalid token format" :=
  ⟨(set_auth_token_spec authDemo).2.2 "valid_token_1234567890" (by decide),
   (set_auth_token_spec authDemo).2.1 "short" (by decide)⟩

/-- C10: once a token is set (the component is the successful result of
some `set_auth_token` call), `render` shows the authenticated content
unconditionally when `_required_roles` is empty — the role check is
skipped — and when `_required_roles` is non-empty it shows the content
iff at least one of the (simulated) user roles `["admin"]` is among the
required roles. -/
theorem render_role_gate (c : AuthenticatedComponent)
    (h : ∃ c₀ t, AuthenticatedComponent.set_auth_token c₀ t = .ok c) :
    (c.requiredRoles = [] → c.render = AuthRender.content ["admin"]) ∧
    (c.requiredRoles ≠ [] →
      (c.render = AuthRender.content ["admin"] ↔
        ∃ r ∈ (["admin"] : List String), r ∈ c.requiredRoles)) := by
  obtain ⟨c₀, t, ht⟩ := h
  cases t with
  | nonStr => cases ht
  | str s =>
    simp only [AuthenticatedComponent.set_auth_token] at ht
    by_cases hlen : s.length < 10
    · rw [if_pos hlen] at ht
      cases ht
    · rw [if_neg hlen] at ht
      cases ht
      have hs : ¬ (s = "") := by
        intro hEq
        subst hEq
        exact hlen (by decide)
      constructor
      · intro hreq
        have hreq' : c₀.requiredRoles = [] := hreq
        simp [AuthenticatedComponent.render, hs, hreq']
      · intro hreq
        have hne : ({ c₀ with authToken := some s } :
            AuthenticatedComponent).requiredRoles.isEmpty = false := by
          simpa [List.isEmpty_iff] using hreq
        by_cases hadm : "admin" ∈ c₀.requiredRoles
        · simp [AuthenticatedComponent.render, hs, AuthenticatedComponent.validate_role,
            hne, hadm]
        · simp [AuthenticatedComponent.render, hs, AuthenticatedComponent.validate_role,
            hne, hadm]

/-- The admin dashboard with the example's token stored. -/
def authDemoTok : AuthenticatedComponent :=
  { title := "Admin Dashboard", requiredRoles := ["admin"],
    authToken := some "valid_token_1234567890", state := [] }

/-- C10 witness: the theorem applied to the dashboard whose token was
set by `set_auth_token`: its required roles `["admin"]` intersect the
simulated user roles, so the content renders. -/
theorem render_role_gate_witness :
    authDemoTok.render = AuthRender.content ["admin"] :=
  ((render_role_gate authDemoTok
      ⟨mkAuth "Admin Dashboard" (some ["admin"]),
       PyToken.str "valid_token_1234567890", rfl⟩).2
    (by decide)).mpr ⟨"admin", by decide, by decide⟩

end OOPDemo
